import Mathlib

set_option maxRecDepth 4000

/-!
# Verification of the `prime-numbers` repository

Shallow embedding of the repository's code in Lean 4:

* `LCG.py` — linear congruential generator (`LCG.next`, `LCG.randbits`);
* `XORShift.py` — 128-bit xorshift generator (`XORShift.init`,
  `XORShift.next`, `XORShift.randbits`);
* `primalidade.py` — `fermat_test` and `miller_rabin_test`;
* `carmichael_test.py` — `gcd` and `fermat_test_coprime_bases`.

Python's unbounded non-negative integers are modelled by `ℕ`; the `k` argument
of `randbits` may be negative in Python, so it is modelled by `ℤ`.  Stateful
methods are modelled as functions from the generator state to a pair of the
returned value and the new state.  The primality tests consume random bases
from `random.randint(2, n - 2)`; the stream of drawn values is modelled by a
function `draws : ℕ → ℕ` giving the i-th draw, and the `ValueError` that
`random.randint(2, n - 2)` raises when `n - 2 < 2` is modelled by returning
`none` (the tests return `Option Bool`: `some b` is a normal return, `none`
an exception).
-/

namespace LCG

/-- `self.m = 2**32` from `LCG.__init__`. -/
def m : ℕ := 2 ^ 32

/-- `self.a = 1103515245` from `LCG.__init__`. -/
def a : ℕ := 1103515245

/-- `self.c = 12345` from `LCG.__init__`. -/
def c : ℕ := 12345

/-- `LCG.next`: `self.state = (self.a * self.state + self.c) % self.m;
return self.state`.  Returns `(returned value, new state)`. -/
def next (state : ℕ) : ℕ × ℕ :=
  let s := (a * state + c) % m
  (s, s)

/-- The accumulation loop of `LCG.randbits`:
`for _ in range(num_words): rand_val = (rand_val << 32) | self.next()`.
Arguments: remaining iterations, accumulator `rand_val`, generator state. -/
def words : ℕ → ℕ → ℕ → ℕ × ℕ
  | 0, acc, s => (acc, s)
  | n + 1, acc, s =>
    let r := next s
    words n ((acc <<< 32) ||| r.1) r.2

/-- `LCG.randbits(k)`.  Python computes `num_words = math.ceil(k / 32)` with
float division; for the integer sizes involved this equals `(k + 31) / 32`
in exact arithmetic, which is how it is rendered here. -/
def randbits (state : ℕ) (k : ℤ) : ℕ × ℕ :=
  if k ≤ 0 then (0, state)
  else
    let kn := k.toNat
    let num_words := (kn + 31) / 32
    let r := words num_words 0 state
    ((r.1 &&& ((1 <<< kn) - 1)) ||| (1 <<< (kn - 1)), r.2)

end LCG

/-- The internal state of `XORShift`: the four 32-bit words
`self.x, self.y, self.z, self.w`. -/
structure XState where
  x : ℕ
  y : ℕ
  z : ℕ
  w : ℕ
deriving DecidableEq, Repr

namespace XORShift

/-- `XORShift.__init__(seed)`: split the seed into four 32-bit words and
force `x = 1` if all four are zero. -/
def init (seed : ℕ) : XState :=
  let x := seed &&& 0xFFFFFFFF
  let y := (seed >>> 32) &&& 0xFFFFFFFF
  let z := (seed >>> 64) &&& 0xFFFFFFFF
  let w := (seed >>> 96) &&& 0xFFFFFFFF
  if x = 0 ∧ y = 0 ∧ z = 0 ∧ w = 0 then ⟨1, y, z, w⟩ else ⟨x, y, z, w⟩

/-- `XORShift.next`.  In `t = self.x ^ (self.x << 11) & 0xFFFFFFFF` Python's
`&` binds tighter than `^`, so the mask applies to the shifted value only;
this is reproduced literally here. -/
def next (st : XState) : ℕ × XState :=
  let t := st.x ^^^ ((st.x <<< 11) &&& 0xFFFFFFFF)
  let w := (st.w ^^^ (st.w >>> 19)) ^^^ (t ^^^ (t >>> 8))
  (w, ⟨st.y, st.z, st.w, w⟩)

/-- The accumulation loop of `XORShift.randbits`, as in `LCG.words`. -/
def words : ℕ → ℕ → XState → ℕ × XState
  | 0, acc, st => (acc, st)
  | n + 1, acc, st =>
    let r := next st
    words n ((acc <<< 32) ||| r.1) r.2

/-- `XORShift.randbits(k)`; identical post-processing to `LCG.randbits`. -/
def randbits (st : XState) (k : ℤ) : ℕ × XState :=
  if k ≤ 0 then (0, st)
  else
    let kn := k.toNat
    let num_words := (kn + 31) / 32
    let r := words num_words 0 st
    ((r.1 &&& ((1 <<< kn) - 1)) ||| (1 <<< (kn - 1)), r.2)

end XORShift

/-! ## Generic facts about the `randbits` post-processing -/

/-- Setting bit `i` by or-ing gives a lower bound. -/
lemma two_pow_le_or (v i : ℕ) : 2 ^ i ≤ v ||| 2 ^ i := by
  by_contra h
  have hlt : v ||| 2 ^ i < 2 ^ i := by omega
  have hbit := Nat.testBit_lt_two_pow hlt
  rw [Nat.testBit_or, Nat.testBit_two_pow_self] at hbit
  simp at hbit

/-- The mask-then-set-MSB step of `randbits` lands in `[2^(k-1), 2^k - 1]`
for `k ≥ 1`, whatever the accumulated words are. -/
lemma mask_msb_bounds (acc kn : ℕ) (hk : 1 ≤ kn) :
    2 ^ (kn - 1) ≤ (acc &&& ((1 <<< kn) - 1)) ||| (1 <<< (kn - 1)) ∧
      (acc &&& ((1 <<< kn) - 1)) ||| (1 <<< (kn - 1)) ≤ 2 ^ kn - 1 := by
  have h1 : (1 : ℕ) <<< kn = 2 ^ kn := by rw [Nat.shiftLeft_eq, one_mul]
  have h2 : (1 : ℕ) <<< (kn - 1) = 2 ^ (kn - 1) := by rw [Nat.shiftLeft_eq, one_mul]
  rw [h1, h2]
  constructor
  · exact two_pow_le_or _ _
  · have hand : acc &&& (2 ^ kn - 1) < 2 ^ kn := by
      have := Nat.and_le_right (n := acc) (m := 2 ^ kn - 1)
      have hpos : 0 < 2 ^ kn := Nat.pos_pow_of_pos _ (by norm_num)
      omega
    have hmsb : 2 ^ (kn - 1) < 2 ^ kn :=
      Nat.pow_lt_pow_right (by norm_num) (by omega)
    have := Nat.or_lt_two_pow hand hmsb
    omega

/-- C3 (helper): bounds for `LCG.randbits`, any state. -/
lemma lcg_randbits_bounds (s : ℕ) (k : ℤ) (hk : 1 ≤ k) :
    2 ^ (k.toNat - 1) ≤ (LCG.randbits s k).1 ∧
      (LCG.randbits s k).1 ≤ 2 ^ k.toNat - 1 := by
  have hk0 : ¬ k ≤ 0 := by omega
  have hk1 : 1 ≤ k.toNat := by omega
  rw [LCG.randbits, if_neg hk0]
  exact mask_msb_bounds _ _ hk1

/-- C3 (helper): bounds for `XORShift.randbits`, any state. -/
lemma xorshift_randbits_bounds (st : XState) (k : ℤ) (hk : 1 ≤ k) :
    2 ^ (k.toNat - 1) ≤ (XORShift.randbits st k).1 ∧
      (XORShift.randbits st k).1 ≤ 2 ^ k.toNat - 1 := by
  have hk0 : ¬ k ≤ 0 := by omega
  have hk1 : 1 ≤ k.toNat := by omega
  rw [XORShift.randbits, if_neg hk0]
  exact mask_msb_bounds _ _ hk1

/-! ## `primalidade.py` -/

/-- The base-testing loop of `fermat_test`:
`for _ in range(k): a = random.randint(2, n - 2); if pow(a, n - 1, n) != 1:
return False`.  `i` is the index of the next random draw; `k` the remaining
iterations. -/
def fermatLoop (draws : ℕ → ℕ) (n : ℕ) : ℕ → ℕ → Option Bool
  | _, 0 => some true
  | i, k + 1 =>
    if n - 2 < 2 then none
    else if (draws i) ^ (n - 1) % n ≠ 1 then some false
    else fermatLoop draws n (i + 1) k

/-- `fermat_test(n, k)` from `primalidade.py`. -/
def fermat_test (draws : ℕ → ℕ) (n k : ℕ) : Option Bool :=
  if n ≤ 1 then some false
  else if n ≤ 3 then some true
  else if n % 2 = 0 then some false
  else fermatLoop draws n 0 k

/-- The decomposition loop of `miller_rabin_test`:
`while d % 2 == 0: d //= 2; s += 1`, started from `d = n - 1`, `s = 0`.
For `d = 0` the Python loop never terminates; this is modelled by `none`
(the loop is only ever entered with `d = n - 1 ≥ 4`). -/
def splitTwos (d s : ℕ) : Option (ℕ × ℕ) :=
  if d % 2 = 0 then
    if h : d = 0 then none
    else splitTwos (d / 2) (s + 1)
  else some (d, s)
termination_by d
decreasing_by exact Nat.div_lt_self (Nat.pos_of_ne_zero h) one_lt_two

/-- The squaring loop of `miller_rabin_test`:
`for _ in range(s - 1): x = (x * x) % n; if x == n - 1: is_composite = False;
break`.  Returns `true` iff some squaring reaches `n - 1` within the given
number of iterations (i.e. `is_composite` ends up `False`). -/
def mrSquare (n : ℕ) : ℕ → ℕ → Bool
  | _, 0 => false
  | x, r + 1 =>
    let y := x * x % n
    if y = n - 1 then true else mrSquare n y r

/-- The per-base body of the `miller_rabin_test` loop: base `a` passes iff
`x = pow(a, d, n)` is `1` or `n - 1`, or one of the up-to-`s - 1` squarings
reaches `n - 1`. -/
def mrPass (n d s a : ℕ) : Bool :=
  let x := a ^ d % n
  if x = 1 ∨ x = n - 1 then true
  else mrSquare n x (s - 1)

/-- The base-testing loop of `miller_rabin_test`: draw a base, run the
per-base body, return `False` as soon as a base fails. -/
def mrLoop (draws : ℕ → ℕ) (n d s : ℕ) : ℕ → ℕ → Option Bool
  | _, 0 => some true
  | i, k + 1 =>
    if n - 2 < 2 then none
    else if mrPass n d s (draws i) then mrLoop draws n d s (i + 1) k
    else some false

/-- `miller_rabin_test(n, k)` from `primalidade.py`. -/
def miller_rabin_test (draws : ℕ → ℕ) (n k : ℕ) : Option Bool :=
  if n ≤ 1 then some false
  else if n ≤ 3 then some true
  else if n % 2 = 0 then some false
  else
    match splitTwos (n - 1) 0 with
    | none => none
    | some (d, s) => mrLoop draws n d s 0 k

/-- `fermat_test` over Python's signed integers: negative `n` falls into the
`n <= 1` branch, all other behaviour is that of the `ℕ` embedding. -/
def fermat_testZ (draws : ℕ → ℕ) (n : ℤ) (k : ℕ) : Option Bool :=
  if n ≤ 1 then some false else fermat_test draws n.toNat k

/-- `miller_rabin_test` over Python's signed integers. -/
def miller_rabin_testZ (draws : ℕ → ℕ) (n : ℤ) (k : ℕ) : Option Bool :=
  if n ≤ 1 then some false else miller_rabin_test draws n.toNat k

/-! ### Loop lemmas -/

/-- One unfolding of `splitTwos` on an even, nonzero argument. -/
lemma splitTwos_even (d s : ℕ) (h2 : d % 2 = 0) (h0 : d ≠ 0) :
    splitTwos d s = splitTwos (d / 2) (s + 1) := by
  rw [splitTwos]
  simp [h2, h0]

/-- `splitTwos` stops on an odd argument. -/
lemma splitTwos_odd (d s : ℕ) (h2 : d % 2 = 1) :
    splitTwos d s = some (d, s) := by
  rw [splitTwos]
  simp [h2]

/-- On positive input, `splitTwos` terminates with an odd `d` and
`2 ^ s * d` equal to `2 ^ s₀` times the input. -/
lemma splitTwos_spec :
    ∀ m, 0 < m → ∀ s₀, ∃ d s, splitTwos m s₀ = some (d, s) ∧
      d % 2 = 1 ∧ 2 ^ s * d = 2 ^ s₀ * m ∧ s₀ ≤ s := by
  intro m
  induction m using Nat.strong_induction_on with
  | _ m ih =>
    intro hm s₀
    rcases Nat.even_or_odd m with he | ho
    · have h2 : m % 2 = 0 := Nat.even_iff.mp he
      have h0 : m ≠ 0 := by omega
      have hlt : m / 2 < m := Nat.div_lt_self hm one_lt_two
      have hpos : 0 < m / 2 := by omega
      obtain ⟨d, s, hsp, hodd, heq, hle⟩ := ih (m / 2) hlt hpos (s₀ + 1)
      refine ⟨d, s, ?_, hodd, ?_, by omega⟩
      · rw [splitTwos_even m s₀ h2 h0]; exact hsp
      · have h2m : 2 * (m / 2) = m := by omega
        calc 2 ^ s * d = 2 ^ (s₀ + 1) * (m / 2) := heq
          _ = 2 ^ s₀ * (2 * (m / 2)) := by ring
          _ = 2 ^ s₀ * m := by rw [h2m]
    · have h2 : m % 2 = 1 := Nat.odd_iff.mp ho
      exact ⟨m, s₀, splitTwos_odd m s₀ h2, h2, rfl, le_refl _⟩

/-- `fermatLoop` returns `some true` when every draw satisfies the Fermat
congruence. -/
lemma fermatLoop_true (draws : ℕ → ℕ) (n : ℕ) (h5 : 5 ≤ n)
    (hall : ∀ j, (draws j) ^ (n - 1) % n = 1) :
    ∀ k i, fermatLoop draws n i k = some true := by
  intro k
  induction k with
  | zero => intro i; rfl
  | succ k ih =>
    intro i
    rw [fermatLoop]
    rw [if_neg (by omega), if_neg (by simpa using hall i)]
    exact ih (i + 1)

/-- `fermatLoop` returns `some false` as soon as the current draw violates
the Fermat congruence. -/
lemma fermatLoop_false (draws : ℕ → ℕ) (n : ℕ) (h5 : 5 ≤ n) (i k : ℕ)
    (hk : 1 ≤ k) (hfail : (draws i) ^ (n - 1) % n ≠ 1) :
    fermatLoop draws n i k = some false := by
  obtain ⟨k', rfl⟩ : ∃ k', k = k' + 1 := ⟨k - 1, by omega⟩
  rw [fermatLoop]
  rw [if_neg (by omega), if_pos (by simpa using hfail)]

/-- `fermatLoop` always returns (never `none`) once `n ≥ 5`. -/
lemma fermatLoop_total (draws : ℕ → ℕ) (n : ℕ) (h5 : 5 ≤ n) :
    ∀ k i, ∃ b, fermatLoop draws n i k = some b := by
  intro k
  induction k with
  | zero => intro i; exact ⟨true, rfl⟩
  | succ k ih =>
    intro i
    rw [fermatLoop, if_neg (by omega)]
    by_cases hfail : (draws i) ^ (n - 1) % n ≠ 1
    · exact ⟨false, by rw [if_pos (by simpa using hfail)]⟩
    · rw [if_neg (by simpa using hfail)]
      exact ih (i + 1)

/-- `mrLoop` returns `some true` when every draw passes the per-base body. -/
lemma mrLoop_true (draws : ℕ → ℕ) (n d s : ℕ) (h5 : 5 ≤ n)
    (hall : ∀ j, mrPass n d s (draws j) = true) :
    ∀ k i, mrLoop draws n d s i k = some true := by
  intro k
  induction k with
  | zero => intro i; rfl
  | succ k ih =>
    intro i
    rw [mrLoop, if_neg (by omega), if_pos (hall i)]
    exact ih (i + 1)

/-- `mrLoop` returns `some false` as soon as one of the remaining draws
fails the per-base body. -/
lemma mrLoop_false (draws : ℕ → ℕ) (n d s : ℕ) (h5 : 5 ≤ n) :
    ∀ k i, (∃ j, i ≤ j ∧ j < i + k ∧ mrPass n d s (draws j) = false) →
      mrLoop draws n d s i k = some false := by
  intro k
  induction k with
  | zero => intro i ⟨j, hj⟩; omega
  | succ k ih =>
    intro i ⟨j, hij, hjk, hfail⟩
    rw [mrLoop, if_neg (by omega)]
    by_cases hi : mrPass n d s (draws i) = true
    · rw [if_pos hi]
      refine ih (i + 1) ⟨j, ?_, by omega, hfail⟩
      rcases Nat.eq_or_lt_of_le hij with rfl | h
      · rw [hi] at hfail; cases hfail
      · omega
    · rw [if_neg hi]

/-- `mrLoop` always returns (never `none`) once `n ≥ 5`. -/
lemma mrLoop_total (draws : ℕ → ℕ) (n d s : ℕ) (h5 : 5 ≤ n) :
    ∀ k i, ∃ b, mrLoop draws n d s i k = some b := by
  intro k
  induction k with
  | zero => intro i; exact ⟨true, rfl⟩
  | succ k ih =>
    intro i
    rw [mrLoop, if_neg (by omega)]
    by_cases hp : mrPass n d s (draws i) = true
    · rw [if_pos hp]; exact ih (i + 1)
    · exact ⟨false, by rw [if_neg hp]⟩

/-! ## `carmichael_test.py` -/

namespace carmichael

/-- `gcd(a, b)` from `carmichael_test.py`: `while b: a, b = b, a % b;
return a`, rendered as the recursion the loop performs. -/
def gcd (a b : ℕ) : ℕ :=
  if h : b = 0 then a else gcd b (a % b)
termination_by b
decreasing_by exact Nat.mod_lt _ (Nat.pos_of_ne_zero h)

/-- The source's `gcd` agrees with `Nat.gcd` (arguments flipped). -/
lemma gcd_eq : ∀ b a, gcd a b = Nat.gcd b a := by
  intro b
  induction b using Nat.strong_induction_on with
  | _ b ih =>
    intro a
    by_cases hb : b = 0
    · subst hb; rw [gcd]; simp
    · rw [gcd]
      rw [dif_neg hb]
      rw [ih (a % b) (Nat.mod_lt _ (Nat.pos_of_ne_zero hb)) b]
      exact (Nat.gcd_rec b a).symm

/-- The base-collection loop of `fermat_test_coprime_bases`:
`candidate = 2; while len(coprime_bases) < k and candidate < n:
if gcd(candidate, n) == 1: coprime_bases.append(candidate); candidate += 1`. -/
def collectAux (n k : ℕ) (cand : ℕ) (acc : List ℕ) : List ℕ :=
  if h : acc.length < k ∧ cand < n then
    collectAux n k (cand + 1) (if gcd cand n = 1 then acc ++ [cand] else acc)
  else acc
termination_by n - cand
decreasing_by omega

/-- `fermat_test_coprime_bases(n, k)` from `carmichael_test.py`. -/
def fermat_test_coprime_bases (n k : ℕ) : Bool :=
  if n ≤ 1 then false
  else if n ≤ 3 then true
  else if n % 2 = 0 then false
  else
    let coprime_bases := collectAux n k 2 []
    if coprime_bases.length < k then false
    else coprime_bases.all fun base => base ^ (n - 1) % n == 1

/-- The collection loop computes the first `k - len(acc)` candidates of
`[cand, n)` coprime to `n`, appended to `acc`. -/
lemma collectAux_eq (n k : ℕ) :
    ∀ fuel cand acc, n - cand ≤ fuel →
      collectAux n k cand acc =
        acc ++ (((List.range' cand (n - cand)).filter
          fun a => Nat.gcd a n == 1).take (k - acc.length)) := by
  intro fuel
  induction fuel with
  | zero =>
    intro cand acc hf
    have h0 : n - cand = 0 := by omega
    rw [collectAux, dif_neg (by omega), h0]
    simp
  | succ fuel ih =>
    intro cand acc hf
    by_cases hcn : cand < n
    · by_cases hlen : acc.length < k
      · rw [collectAux, dif_pos ⟨hlen, hcn⟩]
        obtain ⟨m, hm⟩ : ∃ m, n - cand = m + 1 := ⟨n - cand - 1, by omega⟩
        have hm' : n - (cand + 1) = m := by omega
        rw [hm, List.range'_succ]
        by_cases hco : gcd cand n = 1
        · have hcoN : (Nat.gcd cand n == 1) = true := by
            rw [gcd_eq, Nat.gcd_comm] at hco
            simpa using hco
          rw [if_pos hco, ih (cand + 1) (acc ++ [cand]) (by omega), hm']
          have hfc : List.filter (fun a => Nat.gcd a n == 1)
              (cand :: List.range' (cand + 1) m) =
              cand :: List.filter (fun a => Nat.gcd a n == 1)
                (List.range' (cand + 1) m) :=
            List.filter_cons_of_pos hcoN
          rw [hfc]
          obtain ⟨j, hj⟩ : ∃ j, k - acc.length = j + 1 := ⟨k - acc.length - 1, by omega⟩
          have hlen2 : k - (acc ++ [cand]).length = j := by
            simp only [List.length_append, List.length_cons, List.length_nil]
            omega
          rw [hj, List.take_succ_cons, hlen2, List.append_assoc]
          simp
        · have hcoN : (Nat.gcd cand n == 1) = false := by
            rw [gcd_eq, Nat.gcd_comm] at hco
            simpa using hco
          rw [if_neg hco, ih (cand + 1) acc (by omega), hm']
          have hfc : List.filter (fun a => Nat.gcd a n == 1)
              (cand :: List.range' (cand + 1) m) =
              List.filter (fun a => Nat.gcd a n == 1)
                (List.range' (cand + 1) m) :=
            List.filter_cons_of_neg (by simp [hcoN])
          rw [hfc]
      · rw [collectAux, dif_neg (by omega)]
        have : k - acc.length = 0 := by omega
        rw [this]
        simp
    · rw [collectAux, dif_neg (by omega)]
      have h0 : n - cand = 0 := by omega
      rw [h0]
      simp

/-- Closed form of `fermat_test_coprime_bases` on odd `n > 3`: take the
first `k` bases in `[2, n)` coprime to `n`; if fewer than `k` exist return
`false`, otherwise test the Fermat congruence on each. -/
lemma ftcb_eval (n k : ℕ) (h3 : 3 < n) (hodd : n % 2 = 1) :
    fermat_test_coprime_bases n k =
      (if (((List.range' 2 (n - 2)).filter
              fun a => Nat.gcd a n == 1).take k).length < k then false
       else (((List.range' 2 (n - 2)).filter
              fun a => Nat.gcd a n == 1).take k).all
              fun base => base ^ (n - 1) % n == 1) := by
  rw [fermat_test_coprime_bases]
  rw [if_neg (by omega), if_neg (by omega), if_neg (by omega)]
  have := collectAux_eq n k (n - 2) 2 [] (by omega)
  simp only [List.nil_append, List.length_nil, Nat.sub_zero] at this
  rw [this]

end carmichael

/-! ## Evaluation infrastructure

`a ^ e % n` with the exponents of the Carmichael tests (560, 1104, 1728)
is too deep for step-by-step reduction, so concrete facts are established
through a fuel-based square-and-multiply `powMod` and transported to the
`a ^ e % n` form of the embedded code by `powMod_eq`. -/

def powModAux : ℕ → ℕ → ℕ → ℕ → ℕ
  | 0, _, _, n => 1 % n
  | fuel + 1, a, e, n =>
    if e = 0 then 1 % n
    else
      let h := powModAux fuel (a * a % n) (e / 2) n
      if e % 2 = 1 then h * a % n else h

def powMod (a e n : ℕ) : ℕ := powModAux 64 a e n

lemma powModAux_eq : ∀ fuel a e n, 0 < n → e < 2 ^ fuel →
    powModAux fuel a e n = a ^ e % n := by
  intro fuel
  induction fuel with
  | zero =>
    intro a e n hn he
    have : e = 0 := by simpa using he
    subst this
    simp [powModAux]
  | succ fuel ih =>
    intro a e n hn he
    rw [powModAux]
    by_cases he0 : e = 0
    · subst he0; simp
    · rw [if_neg he0]
      have hlt : e / 2 < 2 ^ fuel := by
        have := Nat.pow_succ 2 fuel
        omega
      have hrec := ih (a * a % n) (e / 2) n hn hlt
      have hmod : (a * a % n) ^ (e / 2) % n = (a * a) ^ (e / 2) % n :=
        (Nat.pow_mod (a * a) (e / 2) n).symm
      have hsq : (a * a) ^ (e / 2) = a ^ (2 * (e / 2)) := by
        rw [← pow_two, ← pow_mul]
      by_cases hpar : e % 2 = 1
      · rw [if_pos hpar]
        rw [hrec, hmod, hsq, Nat.mod_mul_mod]
        have hexp : a ^ e = a ^ (2 * (e / 2)) * a := by
          rw [← pow_succ]
          congr 1
          omega
        rw [hexp]
      · rw [if_neg hpar]
        rw [hrec, hmod, hsq]
        have : 2 * (e / 2) = e := by omega
        rw [this]

lemma powMod_eq (a e n : ℕ) (hn : 0 < n) (he : e < 2 ^ 64) :
    powMod a e n = a ^ e % n := powModAux_eq 64 a e n hn he

/-- Glue for proving a bounded `∀` in chunks. -/
lemma ball_chunk (m n : ℕ) (P : ℕ → Prop) (h1 : ∀ a, a < m → P a)
    (h2 : ∀ i, i < n → P (m + i)) : ∀ a, a < m + n → P a := by
  intro a ha
  rcases Nat.lt_or_ge a m with h | h
  · exact h1 a h
  · have := h2 (a - m) (by omega)
    rwa [Nat.add_sub_cancel' h] at this

/-! ## Concrete number-theoretic facts -/

/-- 561 is a Carmichael number: every coprime base passes Fermat. -/
lemma carm561 : ∀ a, a < 561 → Nat.gcd a 561 = 1 → a ^ 560 % 561 = 1 := by
  have s1 : ∀ a, a < 561 → Nat.gcd a 561 = 1 → powMod a 560 561 = 1 := by decide
  intro a ha hg
  have := s1 a ha hg
  rwa [powMod_eq a 560 561 (by norm_num) (by norm_num)] at this

/-- 1105 is a Carmichael number. -/
lemma carm1105 : ∀ a, a < 1105 → Nat.gcd a 1105 = 1 → a ^ 1104 % 1105 = 1 := by
  have s1 : ∀ a, a < 560 → Nat.gcd a 1105 = 1 → powMod a 1104 1105 = 1 := by decide
  have s2 : ∀ i, i < 545 →
      Nat.gcd (560 + i) 1105 = 1 → powMod (560 + i) 1104 1105 = 1 := by decide
  have c1 := ball_chunk 560 545 _ s1 s2
  intro a ha hg
  have := c1 a ha hg
  rwa [powMod_eq a 1104 1105 (by norm_num) (by norm_num)] at this

/-- 1729 is a Carmichael number. -/
lemma carm1729 : ∀ a, a < 1729 → Nat.gcd a 1729 = 1 → a ^ 1728 % 1729 = 1 := by
  have s1 : ∀ a, a < 450 → Nat.gcd a 1729 = 1 → powMod a 1728 1729 = 1 := by decide
  have s2 : ∀ i, i < 450 →
      Nat.gcd (450 + i) 1729 = 1 → powMod (450 + i) 1728 1729 = 1 := by decide
  have s3 : ∀ i, i < 450 →
      Nat.gcd (900 + i) 1729 = 1 → powMod (900 + i) 1728 1729 = 1 := by decide
  have s4 : ∀ i, i < 379 →
      Nat.gcd (1350 + i) 1729 = 1 → powMod (1350 + i) 1728 1729 = 1 := by decide
  have c1 := ball_chunk 450 450 _ s1 s2
  have c2 := ball_chunk 900 450 _ c1 s3
  have c3 := ball_chunk 1350 379 _ c2 s4
  intro a ha hg
  have := c3 a ha hg
  rwa [powMod_eq a 1728 1729 (by norm_num) (by norm_num)] at this

/-- There are 319 bases in `[2, 561)` coprime to 561. -/
lemma len561 :
    (((List.range' 2 559).filter fun a => Nat.gcd a 561 == 1).length = 319) := by
  decide

/-- There are 767 bases in `[2, 1105)` coprime to 1105. -/
lemma len1105 :
    (((List.range' 2 1103).filter fun a => Nat.gcd a 1105 == 1).length = 767) := by
  have e1 : List.range' 2 552 ++ List.range' 554 551 = List.range' 2 1103 := by
    simpa using List.range'_append_1 2 552 551
  rw [← e1, List.filter_append, List.length_append]
  have l1 : ((List.range' 2 552).filter fun a => Nat.gcd a 1105 == 1).length = 384 := by
    decide
  have l2 : ((List.range' 554 551).filter fun a => Nat.gcd a 1105 == 1).length = 383 := by
    decide
  rw [l1, l2]

/-- There are 1295 bases in `[2, 1729)` coprime to 1729. -/
lemma len1729 :
    (((List.range' 2 1727).filter fun a => Nat.gcd a 1729 == 1).length = 1295) := by
  have e1 : List.range' 2 576 ++ List.range' 578 576 = List.range' 2 1152 := by
    simpa using List.range'_append_1 2 576 576
  have e2 : List.range' 2 1152 ++ List.range' 1154 575 = List.range' 2 1727 := by
    simpa using List.range'_append_1 2 1152 575
  rw [← e2, ← e1, List.filter_append, List.filter_append,
    List.length_append, List.length_append]
  have l1 : ((List.range' 2 576).filter fun a => Nat.gcd a 1729 == 1).length = 432 := by
    decide
  have l2 : ((List.range' 578 576).filter fun a => Nat.gcd a 1729 == 1).length = 432 := by
    decide
  have l3 : ((List.range' 1154 575).filter fun a => Nat.gcd a 1729 == 1).length = 431 := by
    decide
  rw [l1, l2, l3]

/-- Every base in `[2, n - 2]` passes the Fermat congruence for the primes
of the spec's small test set. -/
lemma flt_small : (∀ a, a < 4 → 2 ≤ a → a ^ 4 % 5 = 1) ∧
    (∀ a, a < 6 → 2 ≤ a → a ^ 6 % 7 = 1) ∧
    (∀ a, a < 10 → 2 ≤ a → a ^ 10 % 11 = 1) ∧
    (∀ a, a < 96 → 2 ≤ a → a ^ 96 % 97 = 1) := by
  refine ⟨by decide, by decide, by decide, by decide⟩

/-- Every base in `[2, n - 2]` passes the Miller-Rabin body for the primes
of the spec's small test set (with their `splitTwos` decompositions). -/
lemma mr_small : (∀ a, a < 4 → 2 ≤ a → mrPass 5 1 2 a = true) ∧
    (∀ a, a < 6 → 2 ≤ a → mrPass 7 3 1 a = true) ∧
    (∀ a, a < 10 → 2 ≤ a → mrPass 11 5 1 a = true) ∧
    (∀ a, a < 96 → 2 ≤ a → mrPass 97 3 5 a = true) := by
  refine ⟨by decide, by decide, by decide, by decide⟩

/-- Every base in `[2, 7]` is a Fermat witness for the composite 9. -/
lemma fermat9 : ∀ a, a < 8 → 2 ≤ a → a ^ 8 % 9 ≠ 1 := by decide

/-- Every base in `[2, 7]` is a Miller-Rabin witness for the composite 9. -/
lemma mr9 : ∀ a, a < 8 → 2 ≤ a → mrPass 9 1 3 a = false := by decide

/-! ## Unfolding helpers -/

/-- On odd `n > 3`, `fermat_test` is its base-testing loop. -/
lemma fermat_unfold (draws : ℕ → ℕ) (n k : ℕ) (h3 : 3 < n) (hodd : n % 2 = 1) :
    fermat_test draws n k = fermatLoop draws n 0 k := by
  rw [fermat_test, if_neg (by omega), if_neg (by omega), if_neg (by omega)]

/-- On odd `n > 3` with decomposition `splitTwos (n-1) 0 = some (d, s)`,
`miller_rabin_test` is its base-testing loop. -/
lemma mr_unfold (draws : ℕ → ℕ) (n k d s : ℕ) (h3 : 3 < n) (hodd : n % 2 = 1)
    (hsplit : splitTwos (n - 1) 0 = some (d, s)) :
    miller_rabin_test draws n k = mrLoop draws n d s 0 k := by
  rw [miller_rabin_test, if_neg (by omega), if_neg (by omega), if_neg (by omega), hsplit]

/-- `splitTwos` decompositions used by the concrete claims. -/
lemma split5 : splitTwos 4 0 = some (1, 2) := by simp [splitTwos]

lemma split7 : splitTwos 6 0 = some (3, 1) := by simp [splitTwos]

lemma split9 : splitTwos 8 0 = some (1, 3) := by simp [splitTwos]

lemma split11 : splitTwos 10 0 = some (5, 1) := by simp [splitTwos]

lemma split97 : splitTwos 96 0 = some (3, 5) := by simp [splitTwos]

lemma split561 : splitTwos 560 0 = some (35, 4) := by simp [splitTwos]

lemma split1105 : splitTwos 1104 0 = some (69, 4) := by simp [splitTwos]

lemma split1729 : splitTwos 1728 0 = some (27, 6) := by simp [splitTwos]

/-- `fermat_test_coprime_bases n k = true` whenever `1 ≤ k` does not exceed
the number `C` of coprime bases in `[2, n)` and every coprime base passes
the Fermat congruence. -/
lemma ftcb_true (n k C : ℕ) (h3 : 3 < n) (hodd : n % 2 = 1)
    (hlen : ((List.range' 2 (n - 2)).filter fun a => Nat.gcd a n == 1).length = C)
    (hall : ∀ a, a < n → Nat.gcd a n = 1 → a ^ (n - 1) % n = 1)
    (hk1 : 1 ≤ k) (hkC : k ≤ C) :
    carmichael.fermat_test_coprime_bases n k = true := by
  rw [carmichael.ftcb_eval n k h3 hodd]
  have hlen' : (((List.range' 2 (n - 2)).filter
      fun a => Nat.gcd a n == 1).take k).length = k := by
    rw [List.length_take, hlen]
    omega
  rw [if_neg (by omega)]
  rw [List.all_eq_true]
  intro a ha
  have hmem : a ∈ (List.range' 2 (n - 2)).filter fun a => Nat.gcd a n == 1 :=
    List.mem_of_mem_take ha
  rw [List.mem_filter] at hmem
  obtain ⟨hr, hg⟩ := hmem
  rw [List.mem_range'] at hr
  have hbound : a < n := by
    obtain ⟨i, hi, rfl⟩ := hr
    omega
  have hgcd : Nat.gcd a n = 1 := by simpa using hg
  simpa using hall a hbound hgcd

/-- `fermat_test_coprime_bases n k = false` whenever fewer than `k` bases
in `[2, n)` are coprime to `n`: the too-few-bases guard fires. -/
lemma ftcb_false_of_few (n k : ℕ) (h3 : 3 < n) (hodd : n % 2 = 1)
    (hfew : ((List.range' 2 (n - 2)).filter fun a => Nat.gcd a n == 1).length < k) :
    carmichael.fermat_test_coprime_bases n k = false := by
  rw [carmichael.ftcb_eval n k h3 hodd]
  have hlen : (((List.range' 2 (n - 2)).filter
      fun a => Nat.gcd a n == 1).take k).length < k := by
    rw [List.length_take]
    omega
  rw [if_pos hlen]

/-- `mrLoop` returns `some true` when every draw it actually inspects
(indices `i` to `i + k - 1`) passes the per-base body. -/
lemma mrLoop_true_win (draws : ℕ → ℕ) (n d s : ℕ) (h5 : 5 ≤ n) :
    ∀ k i, (∀ j, i ≤ j → j < i + k → mrPass n d s (draws j) = true) →
      mrLoop draws n d s i k = some true := by
  intro k
  induction k with
  | zero => intro i _; rfl
  | succ k ih =>
    intro i hall
    rw [mrLoop, if_neg (by omega), if_pos (hall i (le_refl i) (by omega))]
    exact ih (i + 1) fun j h1 h2 => hall j (by omega) (by omega)

/-! ## Claim theorems -/

/-- C5: for every starting LCG state `s`, one call to `LCG.next` sets the
state to `(1103515245 * s + 12345) mod 2^32` and returns that new state. -/
theorem claim5_theorem (s : ℕ) :
    (LCG.next s).2 = (1103515245 * s + 12345) % 2 ^ 32 ∧
    (LCG.next s).1 = (LCG.next s).2 := by
  constructor <;> rfl

/-- C9: constructing an `XORShift` with seed 0 yields state
`x = 1, y = 0, z = 0, w = 0`, and the first `next` call on that state is
well-defined: it returns the value 2057 with successor state
`(0, 0, 0, 2057)`. -/
theorem claim9_theorem :
    XORShift.init 0 = ⟨1, 0, 0, 0⟩ ∧
    XORShift.next (XORShift.init 0) = (2057, ⟨0, 0, 0, 2057⟩) := by
  constructor <;> rfl

/-- C8: for every integer `k ≤ 0`, both generators' `randbits` return 0
(and, being total functions, raise no error), in every state. -/
theorem claim8_theorem (k : ℤ) (hk : k ≤ 0) (s : ℕ) (st : XState) :
    (LCG.randbits s k).1 = 0 ∧ (XORShift.randbits st k).1 = 0 := by
  constructor
  · rw [LCG.randbits, if_pos hk]
  · rw [XORShift.randbits, if_pos hk]

/-- Witness for C8 at `k = -1`, LCG state 0, XORShift state `(1,0,0,0)`. -/
theorem claim8_witness :
    (-1 : ℤ) ≤ 0 ∧
    ((LCG.randbits 0 (-1)).1 = 0 ∧ (XORShift.randbits ⟨1, 0, 0, 0⟩ (-1)).1 = 0) :=
  ⟨by norm_num, claim8_theorem (-1) (by norm_num) 0 ⟨1, 0, 0, 0⟩⟩

/-- C3: for every integer `k ≥ 1`, in every state of either generator,
`randbits k` returns `v` with `2^(k-1) ≤ v ≤ 2^k - 1` (exactly `k`
significant bits). -/
theorem claim3_theorem (k : ℤ) (hk : 1 ≤ k) (s : ℕ) (st : XState) :
    (2 ^ (k.toNat - 1) ≤ (LCG.randbits s k).1 ∧
      (LCG.randbits s k).1 ≤ 2 ^ k.toNat - 1) ∧
    (2 ^ (k.toNat - 1) ≤ (XORShift.randbits st k).1 ∧
      (XORShift.randbits st k).1 ≤ 2 ^ k.toNat - 1) :=
  ⟨lcg_randbits_bounds s k hk, xorshift_randbits_bounds st k hk⟩

/-- Witness for C3 at `k = 1`, LCG state 0, XORShift state `(0,0,0,0)`. -/
theorem claim3_witness :
    (1 : ℤ) ≤ 1 ∧
    ((2 ^ ((1 : ℤ).toNat - 1) ≤ (LCG.randbits 0 1).1 ∧
      (LCG.randbits 0 1).1 ≤ 2 ^ (1 : ℤ).toNat - 1) ∧
    (2 ^ ((1 : ℤ).toNat - 1) ≤ (XORShift.randbits ⟨0, 0, 0, 0⟩ 1).1 ∧
      (XORShift.randbits ⟨0, 0, 0, 0⟩ 1).1 ≤ 2 ^ (1 : ℤ).toNat - 1)) :=
  ⟨by norm_num, claim3_theorem 1 (by norm_num) 0 ⟨0, 0, 0, 0⟩⟩

/-- C6: for every `XORShift` state with all four words below `2^32`, `next`
returns `(w xor (w >> 19)) xor (t xor (t >> 8))` where
`t = (x xor (x << 11))` masked to 32 bits, rotates the state to
`(y, z, w, new w)`, and the returned word is again below `2^32`.  (In the
source the mask is applied to `x << 11` only, by operator precedence; for
`x < 2^32` the two expressions coincide, which this theorem proves.) -/
theorem claim6_theorem (st : XState)
    (hx : st.x < 2 ^ 32) (hy : st.y < 2 ^ 32)
    (hz : st.z < 2 ^ 32) (hw : st.w < 2 ^ 32) :
    (XORShift.next st).1 =
      (st.w ^^^ (st.w >>> 19)) ^^^
        (((st.x ^^^ (st.x <<< 11)) &&& 0xFFFFFFFF) ^^^
          (((st.x ^^^ (st.x <<< 11)) &&& 0xFFFFFFFF) >>> 8)) ∧
    (XORShift.next st).2 = ⟨st.y, st.z, st.w, (XORShift.next st).1⟩ ∧
    (XORShift.next st).1 < 2 ^ 32 := by
  have hM : (0xFFFFFFFF : ℕ) = 2 ^ 32 - 1 := by norm_num
  have ht : (st.x ^^^ (st.x <<< 11)) &&& 0xFFFFFFFF =
      st.x ^^^ ((st.x <<< 11) &&& 0xFFFFFFFF) := by
    rw [hM, Nat.and_xor_distrib_right, Nat.and_pow_two_sub_one_of_lt_two_pow hx]
  refine ⟨by rw [XORShift.next, ht], by rw [XORShift.next], ?_⟩
  have htlt : st.x ^^^ ((st.x <<< 11) &&& 0xFFFFFFFF) < 2 ^ 32 := by
    refine Nat.xor_lt_two_pow hx ?_
    have := Nat.and_le_right (n := st.x <<< 11) (m := 0xFFFFFFFF)
    have h32 : (0xFFFFFFFF : ℕ) < 2 ^ 32 := by norm_num
    omega
  have hshift : ∀ v j : ℕ, v < 2 ^ 32 → v >>> j < 2 ^ 32 := by
    intro v j hv
    rw [Nat.shiftRight_eq_div_pow]
    exact lt_of_le_of_lt (Nat.div_le_self _ _) hv
  rw [XORShift.next]
  exact Nat.xor_lt_two_pow (Nat.xor_lt_two_pow hw (hshift _ _ hw))
    (Nat.xor_lt_two_pow htlt (hshift _ _ htlt))

/-- Witness for C6 at the state `(1, 0, 0, 0)`. -/
theorem claim6_witness :
    ((1 : ℕ) < 2 ^ 32 ∧ (0 : ℕ) < 2 ^ 32) ∧
    ((XORShift.next ⟨1, 0, 0, 0⟩).1 =
      ((0 : ℕ) ^^^ ((0 : ℕ) >>> 19)) ^^^
        ((((1 : ℕ) ^^^ ((1 : ℕ) <<< 11)) &&& 0xFFFFFFFF) ^^^
          ((((1 : ℕ) ^^^ ((1 : ℕ) <<< 11)) &&& 0xFFFFFFFF) >>> 8)) ∧
    (XORShift.next ⟨1, 0, 0, 0⟩).2 = ⟨0, 0, 0, (XORShift.next ⟨1, 0, 0, 0⟩).1⟩ ∧
    (XORShift.next ⟨1, 0, 0, 0⟩).1 < 2 ^ 32) :=
  ⟨⟨by norm_num, by norm_num⟩,
    claim6_theorem ⟨1, 0, 0, 0⟩ (by norm_num) (by norm_num) (by norm_num) (by norm_num)⟩

/-- C2: for every `k ≥ 1` and every sequence of random draws from
`[2, n - 2]` (only constrained where that range exists, i.e. `n ≥ 4`),
`fermat_test` and `miller_rabin_test` both return `false` on
`{0, 1, 4, 6, 8, 9, 100}` and `true` on `{2, 3, 5, 7, 11, 97}`. -/
theorem claim2_theorem (draws : ℕ → ℕ) (k : ℕ) (hk : 1 ≤ k) :
    (∀ n ∈ ([0, 1, 4, 6, 8, 9, 100] : List ℕ),
      (4 ≤ n → ∀ i, 2 ≤ draws i ∧ draws i ≤ n - 2) →
        fermat_test draws n k = some false ∧
        miller_rabin_test draws n k = some false) ∧
    (∀ n ∈ ([2, 3, 5, 7, 11, 97] : List ℕ),
      (4 ≤ n → ∀ i, 2 ≤ draws i ∧ draws i ≤ n - 2) →
        fermat_test draws n k = some true ∧
        miller_rabin_test draws n k = some true) := by
  constructor
  · intro n hn hdr
    fin_cases hn
    · exact ⟨by simp [fermat_test], by simp [miller_rabin_test]⟩
    · exact ⟨by simp [fermat_test], by simp [miller_rabin_test]⟩
    · exact ⟨by simp [fermat_test], by simp [miller_rabin_test]⟩
    · exact ⟨by simp [fermat_test], by simp [miller_rabin_test]⟩
    · exact ⟨by simp [fermat_test], by simp [miller_rabin_test]⟩
    · -- n = 9
      have h0 := hdr (by norm_num) 0
      constructor
      · rw [fermat_unfold draws 9 k (by norm_num) (by norm_num)]
        exact fermatLoop_false draws 9 (by norm_num) 0 k hk
          (fermat9 (draws 0) (by omega) (by omega))
      · rw [mr_unfold draws 9 k 1 3 (by norm_num) (by norm_num) split9]
        exact mrLoop_false draws 9 1 3 (by norm_num) k 0
          ⟨0, by omega, by omega, mr9 (draws 0) (by omega) (by omega)⟩
    · exact ⟨by simp [fermat_test], by simp [miller_rabin_test]⟩
  · intro n hn hdr
    fin_cases hn
    · exact ⟨by simp [fermat_test], by simp [miller_rabin_test]⟩
    · exact ⟨by simp [fermat_test], by simp [miller_rabin_test]⟩
    · -- n = 5
      have hdr5 := hdr (by norm_num)
      constructor
      · rw [fermat_unfold draws 5 k (by norm_num) (by norm_num)]
        exact fermatLoop_true draws 5 (by norm_num)
          (fun j => flt_small.1 (draws j) (by have := hdr5 j; omega) (hdr5 j).1) k 0
      · rw [mr_unfold draws 5 k 1 2 (by norm_num) (by norm_num) split5]
        exact mrLoop_true draws 5 1 2 (by norm_num)
          (fun j => mr_small.1 (draws j) (by have := hdr5 j; omega) (hdr5 j).1) k 0
    · -- n = 7
      have hdr7 := hdr (by norm_num)
      constructor
      · rw [fermat_unfold draws 7 k (by norm_num) (by norm_num)]
        exact fermatLoop_true draws 7 (by norm_num)
          (fun j => flt_small.2.1 (draws j) (by have := hdr7 j; omega) (hdr7 j).1) k 0
      · rw [mr_unfold draws 7 k 3 1 (by norm_num) (by norm_num) split7]
        exact mrLoop_true draws 7 3 1 (by norm_num)
          (fun j => mr_small.2.1 (draws j) (by have := hdr7 j; omega) (hdr7 j).1) k 0
    · -- n = 11
      have hdr11 := hdr (by norm_num)
      constructor
      · rw [fermat_unfold draws 11 k (by norm_num) (by norm_num)]
        exact fermatLoop_true draws 11 (by norm_num)
          (fun j => flt_small.2.2.1 (draws j) (by have := hdr11 j; omega) (hdr11 j).1) k 0
      · rw [mr_unfold draws 11 k 5 1 (by norm_num) (by norm_num) split11]
        exact mrLoop_true draws 11 5 1 (by norm_num)
          (fun j => mr_small.2.2.1 (draws j) (by have := hdr11 j; omega) (hdr11 j).1) k 0
    · -- n = 97
      have hdr97 := hdr (by norm_num)
      constructor
      · rw [fermat_unfold draws 97 k (by norm_num) (by norm_num)]
        exact fermatLoop_true draws 97 (by norm_num)
          (fun j => flt_small.2.2.2 (draws j) (by have := hdr97 j; omega) (hdr97 j).1) k 0
      · rw [mr_unfold draws 97 k 3 5 (by norm_num) (by norm_num) split97]
        exact mrLoop_true draws 97 3 5 (by norm_num)
          (fun j => mr_small.2.2.2 (draws j) (by have := hdr97 j; omega) (hdr97 j).1) k 0

/-- Witness for C2: draws constantly 2, `k = 1`, at `n = 9` and `n = 97`. -/
theorem claim2_witness :
    (1 : ℕ) ≤ 1 ∧
    (fermat_test (fun _ => 2) 9 1 = some false ∧
      miller_rabin_test (fun _ => 2) 9 1 = some false) ∧
    (fermat_test (fun _ => 2) 97 1 = some true ∧
      miller_rabin_test (fun _ => 2) 97 1 = some true) :=
  ⟨le_refl 1,
    (claim2_theorem (fun _ => 2) 1 (by norm_num)).1 9 (by norm_num)
      (fun _ _ => ⟨by norm_num, by norm_num⟩),
    (claim2_theorem (fun _ => 2) 1 (by norm_num)).2 97 (by norm_num)
      (fun _ _ => ⟨by norm_num, by norm_num⟩)⟩

/-- C4: for odd `n > 3`, the decomposition loop yields `d`, `s` with
`n - 1 = 2^s * d` and `d` odd; `miller_rabin_test` runs `mrLoop` on them;
and any drawn base `a = draws i` with `a^d mod n` neither `1` nor `n - 1`
for which none of the up-to-`s - 1` squarings reaches `n - 1` makes the
loop return `false` at that iteration — for every `k ≥ 1` and regardless
of all draws after index `i`, i.e. no further bases are drawn. -/
theorem claim4_theorem (n : ℕ) (h3 : 3 < n) (hodd : n % 2 = 1) :
    ∃ d s, splitTwos (n - 1) 0 = some (d, s) ∧
      n - 1 = 2 ^ s * d ∧ d % 2 = 1 ∧
      (∀ draws k, miller_rabin_test draws n k = mrLoop draws n d s 0 k) ∧
      (∀ draws k i, 1 ≤ k →
        (draws i) ^ d % n ≠ 1 → (draws i) ^ d % n ≠ n - 1 →
        mrSquare n ((draws i) ^ d % n) (s - 1) = false →
        mrLoop draws n d s i k = some false) := by
  obtain ⟨d, s, hsp, hd, heq, _⟩ := splitTwos_spec (n - 1) (by omega) 0
  rw [pow_zero, one_mul] at heq
  refine ⟨d, s, hsp, heq.symm, hd, ?_, ?_⟩
  · intro draws k
    exact mr_unfold draws n k d s h3 hodd hsp
  · intro draws k i hk h1 h2 hsq
    obtain ⟨k', rfl⟩ : ∃ k', k = k' + 1 := ⟨k - 1, by omega⟩
    rw [mrLoop, if_neg (by omega)]
    have hp : mrPass n d s (draws i) = false := by
      simp only [mrPass]
      rw [if_neg (by push_neg; exact ⟨h1, h2⟩)]
      exact hsq
    rw [if_neg (by simp [hp])]

/-- Witness for C4 at `n = 9` (so `d = 1`, `s = 3`), base 2, `k = 1`. -/
theorem claim4_witness :
    mrLoop (fun _ => 2) 9 1 3 0 1 = some false ∧
    miller_rabin_test (fun _ => 2) 9 1 = some false := by
  obtain ⟨d, s, hsp, hds, hodd, hunfold, hfalse⟩ :=
    claim4_theorem 9 (by norm_num) (by norm_num)
  have h8 : (9 : ℕ) - 1 = 8 := by norm_num
  rw [h8, split9] at hsp
  have hds' : 1 = d ∧ 3 = s := by simpa using hsp
  obtain ⟨rfl, rfl⟩ := hds'
  have hbody := hfalse (fun _ => 2) 1 0 (by norm_num)
    (by norm_num) (by norm_num) (by decide)
  exact ⟨hbody, by rw [hunfold (fun _ => 2) 1]; exact hbody⟩

/-- C7: for odd `n > 3` and `k ≥ 1`, when fewer than `k` bases `a` with
`2 ≤ a < n` and `gcd(a, n) = 1` exist, `fermat_test_coprime_bases n k`
returns `false` (the guard fires before the congruence loop is reached). -/
theorem claim7_theorem (n k : ℕ) (h3 : 3 < n) (hodd : n % 2 = 1) (hk : 1 ≤ k)
    (hfew : ((List.range' 2 (n - 2)).filter fun a => Nat.gcd a n == 1).length < k) :
    carmichael.fermat_test_coprime_bases n k = false := by
  rw [carmichael.ftcb_eval n k h3 hodd]
  have hlen : (((List.range' 2 (n - 2)).filter
      fun a => Nat.gcd a n == 1).take k).length < k := by
    rw [List.length_take]
    omega
  rw [if_pos hlen]

/-- Witness for C7 at `n = 5`, `k = 4`: only 3 coprime bases exist. -/
theorem claim7_witness :
    (((List.range' 2 (5 - 2)).filter fun a => Nat.gcd a 5 == 1).length < 4) ∧
    carmichael.fermat_test_coprime_bases 5 4 = false :=
  ⟨by decide, claim7_theorem 5 4 (by norm_num) (by norm_num) (by norm_num) (by decide)⟩

/-- C10: `fermat_test` and `miller_rabin_test` are total: for every integer
`n`, every `k ≥ 0` and every draw sequence, both return `some` boolean
(no exception): whenever a base is drawn, `n` is odd and at least 5, so
`random.randint(2, n-2)` has a nonempty range, and the decomposition and
squaring loops terminate. -/
theorem claim10_theorem (n : ℤ) (k : ℕ) (draws : ℕ → ℕ) :
    (∃ b, fermat_testZ draws n k = some b) ∧
    (∃ b, miller_rabin_testZ draws n k = some b) := by
  by_cases h1 : n ≤ 1
  · exact ⟨⟨false, by rw [fermat_testZ, if_pos h1]⟩,
      ⟨false, by rw [miller_rabin_testZ, if_pos h1]⟩⟩
  · have hfz : fermat_testZ draws n k = fermat_test draws n.toNat k := by
      rw [fermat_testZ, if_neg h1]
    have hmz : miller_rabin_testZ draws n k = miller_rabin_test draws n.toNat k := by
      rw [miller_rabin_testZ, if_neg h1]
    have hm2 : 2 ≤ n.toNat := by omega
    rw [hfz, hmz]
    constructor
    · rw [fermat_test]
      by_cases hB : n.toNat ≤ 3
      · rw [if_neg (by omega), if_pos hB]
        exact ⟨true, rfl⟩
      · rw [if_neg (by omega), if_neg hB]
        by_cases hC : n.toNat % 2 = 0
        · rw [if_pos hC]
          exact ⟨false, rfl⟩
        · rw [if_neg hC]
          exact fermatLoop_total draws n.toNat (by omega) k 0
    · rw [miller_rabin_test]
      by_cases hB : n.toNat ≤ 3
      · rw [if_neg (by omega), if_pos hB]
        exact ⟨true, rfl⟩
      · rw [if_neg (by omega), if_neg hB]
        by_cases hC : n.toNat % 2 = 0
        · rw [if_pos hC]
          exact ⟨false, rfl⟩
        · rw [if_neg hC]
          obtain ⟨d, s, hsp, -, -, -⟩ := splitTwos_spec (n.toNat - 1) (by omega) 0
          rw [hsp]
          exact mrLoop_total draws n.toNat d s (by omega) k 0

/-- C1 (counterexample): the claim fails as stated at all three Carmichael
numbers, on two counts.  `fermat_test_coprime_bases n k` is `false` for
`k` one past the coprime-base count (320, 768, 1296: the too-few-bases
guard fires), and `miller_rabin_test n k` is `true` for the valid constant
draw sequences 50, 47 and 9 (strong liars for 561, 1105 and 1729, each
within `[2, n - 2]`). -/
theorem claim1_counterexample :
    (carmichael.fermat_test_coprime_bases 561 320 = false ∧
      carmichael.fermat_test_coprime_bases 1105 768 = false ∧
      carmichael.fermat_test_coprime_bases 1729 1296 = false) ∧
    (miller_rabin_test (fun _ => 50) 561 1 = some true ∧
      miller_rabin_test (fun _ => 47) 1105 1 = some true ∧
      miller_rabin_test (fun _ => 9) 1729 1 = some true) := by
  refine ⟨⟨?_, ?_, ?_⟩, ?_, ?_, ?_⟩
  · refine ftcb_false_of_few 561 320 (by norm_num) (by norm_num) ?_
    have h : ((List.range' 2 (561 - 2)).filter
        fun a => Nat.gcd a 561 == 1).length = 319 := len561
    omega
  · refine ftcb_false_of_few 1105 768 (by norm_num) (by norm_num) ?_
    have h : ((List.range' 2 (1105 - 2)).filter
        fun a => Nat.gcd a 1105 == 1).length = 767 := len1105
    omega
  · refine ftcb_false_of_few 1729 1296 (by norm_num) (by norm_num) ?_
    have h : ((List.range' 2 (1729 - 2)).filter
        fun a => Nat.gcd a 1729 == 1).length = 1295 := len1729
    omega
  · rw [mr_unfold (fun _ => 50) 561 1 35 4 (by norm_num) (by norm_num) split561]
    decide
  · rw [mr_unfold (fun _ => 47) 1105 1 69 4 (by norm_num) (by norm_num) split1105]
    decide
  · rw [mr_unfold (fun _ => 9) 1729 1 27 6 (by norm_num) (by norm_num) split1729]
    decide

/-- C1 (amended): for `n ∈ {561, 1105, 1729}`, with `C(n) = 319, 767, 1295`
the number of bases in `[2, n)` coprime to `n`:
`fermat_test_coprime_bases n k = true` for every `k` with `1 ≤ k ≤ C(n)`
and `= false` for every `k > C(n)`; `miller_rabin_test n k` returns
`false` for every draw sequence in which at least one of the first `k`
drawn bases fails the per-base Miller-Rabin check, and returns `true`
whenever all of the first `k` drawn bases pass it; such all-pass sequences
within `[2, n - 2]` exist, since 50, 47 and 9 are strong liars for 561,
1105 and 1729 respectively. -/
theorem claim1_theorem :
    (∀ k, 1 ≤ k → k ≤ 319 → carmichael.fermat_test_coprime_bases 561 k = true) ∧
    (∀ k, 319 < k → carmichael.fermat_test_coprime_bases 561 k = false) ∧
    (∀ k, 1 ≤ k → k ≤ 767 → carmichael.fermat_test_coprime_bases 1105 k = true) ∧
    (∀ k, 767 < k → carmichael.fermat_test_coprime_bases 1105 k = false) ∧
    (∀ k, 1 ≤ k → k ≤ 1295 → carmichael.fermat_test_coprime_bases 1729 k = true) ∧
    (∀ k, 1295 < k → carmichael.fermat_test_coprime_bases 1729 k = false) ∧
    (∀ draws k, (∃ i, i < k ∧ mrPass 561 35 4 (draws i) = false) →
      miller_rabin_test draws 561 k = some false) ∧
    (∀ draws k, (∀ i, i < k → mrPass 561 35 4 (draws i) = true) →
      miller_rabin_test draws 561 k = some true) ∧
    (2 ≤ 50 ∧ 50 ≤ 561 - 2 ∧ mrPass 561 35 4 50 = true) ∧
    (∀ draws k, (∃ i, i < k ∧ mrPass 1105 69 4 (draws i) = false) →
      miller_rabin_test draws 1105 k = some false) ∧
    (∀ draws k, (∀ i, i < k → mrPass 1105 69 4 (draws i) = true) →
      miller_rabin_test draws 1105 k = some true) ∧
    (2 ≤ 47 ∧ 47 ≤ 1105 - 2 ∧ mrPass 1105 69 4 47 = true) ∧
    (∀ draws k, (∃ i, i < k ∧ mrPass 1729 27 6 (draws i) = false) →
      miller_rabin_test draws 1729 k = some false) ∧
    (∀ draws k, (∀ i, i < k → mrPass 1729 27 6 (draws i) = true) →
      miller_rabin_test draws 1729 k = some true) ∧
    (2 ≤ 9 ∧ 9 ≤ 1729 - 2 ∧ mrPass 1729 27 6 9 = true) := by
  refine ⟨?_, ?_, ?_, ?_, ?_, ?_, ?_, ?_, ?_, ?_, ?_, ?_, ?_, ?_, ?_⟩
  · intro k h1 h2
    exact ftcb_true 561 k 319 (by norm_num) (by norm_num) len561 carm561 h1 h2
  · intro k hk
    refine ftcb_false_of_few 561 k (by norm_num) (by norm_num) ?_
    have h : ((List.range' 2 (561 - 2)).filter
        fun a => Nat.gcd a 561 == 1).length = 319 := len561
    omega
  · intro k h1 h2
    exact ftcb_true 1105 k 767 (by norm_num) (by norm_num) len1105 carm1105 h1 h2
  · intro k hk
    refine ftcb_false_of_few 1105 k (by norm_num) (by norm_num) ?_
    have h : ((List.range' 2 (1105 - 2)).filter
        fun a => Nat.gcd a 1105 == 1).length = 767 := len1105
    omega
  · intro k h1 h2
    exact ftcb_true 1729 k 1295 (by norm_num) (by norm_num) len1729 carm1729 h1 h2
  · intro k hk
    refine ftcb_false_of_few 1729 k (by norm_num) (by norm_num) ?_
    have h : ((List.range' 2 (1729 - 2)).filter
        fun a => Nat.gcd a 1729 == 1).length = 1295 := len1729
    omega
  · intro draws k ⟨i, hik, hfail⟩
    rw [mr_unfold draws 561 k 35 4 (by norm_num) (by norm_num) split561]
    exact mrLoop_false draws 561 35 4 (by norm_num) k 0 ⟨i, by omega, by omega, hfail⟩
  · intro draws k hall
    rw [mr_unfold draws 561 k 35 4 (by norm_num) (by norm_num) split561]
    exact mrLoop_true_win draws 561 35 4 (by norm_num) k 0
      fun j h1 h2 => hall j (by omega)
  · exact ⟨by norm_num, by norm_num, by decide⟩
  · intro draws k ⟨i, hik, hfail⟩
    rw [mr_unfold draws 1105 k 69 4 (by norm_num) (by norm_num) split1105]
    exact mrLoop_false draws 1105 69 4 (by norm_num) k 0 ⟨i, by omega, by omega, hfail⟩
  · intro draws k hall
    rw [mr_unfold draws 1105 k 69 4 (by norm_num) (by norm_num) split1105]
    exact mrLoop_true_win draws 1105 69 4 (by norm_num) k 0
      fun j h1 h2 => hall j (by omega)
  · exact ⟨by norm_num, by norm_num, by decide⟩
  · intro draws k ⟨i, hik, hfail⟩
    rw [mr_unfold draws 1729 k 27 6 (by norm_num) (by norm_num) split1729]
    exact mrLoop_false draws 1729 27 6 (by norm_num) k 0 ⟨i, by omega, by omega, hfail⟩
  · intro draws k hall
    rw [mr_unfold draws 1729 k 27 6 (by norm_num) (by norm_num) split1729]
    exact mrLoop_true_win draws 1729 27 6 (by norm_num) k 0
      fun j h1 h2 => hall j (by omega)
  · exact ⟨by norm_num, by norm_num, by decide⟩

/-- Witness for C1 (amended), all at `n = 561`: `k = 20` and `k = 320` for
the coprime Fermat variant, the constant witness-base-2 sequence for the
Miller-Rabin `false` clause, and the constant liar-base-50 sequence for
the Miller-Rabin `true` clause. -/
theorem claim1_witness :
    ((1 : ℕ) ≤ 20 ∧ 20 ≤ 319 ∧ 319 < 320) ∧
    carmichael.fermat_test_coprime_bases 561 20 = true ∧
    carmichael.fermat_test_coprime_bases 561 320 = false ∧
    miller_rabin_test (fun _ => 2) 561 1 = some false ∧
    miller_rabin_test (fun _ => 50) 561 1 = some true :=
  ⟨⟨by norm_num, by norm_num, by norm_num⟩,
    claim1_theorem.1 20 (by norm_num) (by norm_num),
    claim1_theorem.2.1 320 (by norm_num),
    claim1_theorem.2.2.2.2.2.2.1 (fun _ => 2) 1 ⟨0, by norm_num, by decide⟩,
    claim1_theorem.2.2.2.2.2.2.2.1 (fun _ => 50) 1
      (fun j hj => show mrPass 561 35 4 50 = true by decide)⟩
